import Mathlib

/-
Verification of the playmarkets SDK core (src/core/sdk.ts, src/utils/odds.ts,
src/utils/validation.ts) against its specification.

Shallow embedding conventions:
* JS numbers carrying money/odds are modelled as rationals (the code performs
  only field arithmetic and Math.round-based rounding on them).
* Timestamps (Date.now(), closesAt) are integers, threaded explicitly.
* The storage adapter (MemoryStorage: three JS Maps keyed by id) is modelled as
  three association lists with unique keys; save replaces the first entry with
  the same id or appends, matching Map.set insertion-order semantics.
* Fallible operations return Except PredictSDKError.
* Events, debug logging and unused fields (createdAt, metadata, description,
  appId, outcomeType, proof) are omitted: no claim mentions them.
-/

namespace PlayMarkets

/-- Market lifecycle status, from MarketStatus in src/core/types.ts. -/
inductive MarketStatus where
  | OPEN
  | CLOSED
  | RESOLVED
  | CANCELLED
deriving DecidableEq

/-- One outcome of a market, from MarketOutcome in src/core/types.ts. -/
structure MarketOutcome where
  id : String
  label : String
  totalBets : ℚ
  betCount : ℕ
  odds : ℚ
  probability : ℚ
deriving DecidableEq

/-- A market, from Market in src/core/types.ts (fields unused by the claims omitted). -/
structure Market where
  id : String
  question : String
  outcomes : List MarketOutcome
  status : MarketStatus
  totalPool : ℚ
  feeRate : ℚ
  closesAt : ℤ
  resolvedAt : Option ℤ
  winningOutcomeId : Option String
  allowedBettors : Option (List String)
  minBet : Option ℚ
  maxBet : Option ℚ
deriving DecidableEq

/-- Bet status, from BetStatus in src/core/types.ts. -/
inductive BetStatus where
  | pending
  | confirmed
  | won
  | lost
  | refunded
deriving DecidableEq

/-- A bet, from Bet in src/core/types.ts (createdAt omitted). -/
structure Bet where
  id : String
  marketId : String
  bettorId : String
  outcomeId : String
  amount : ℚ
  potentialPayout : ℚ
  status : BetStatus
  payout : Option ℚ
  oddsAtBet : ℚ
deriving DecidableEq

/-- A user, from User in src/core/types.ts (createdAt omitted). -/
structure User where
  id : String
  balance : ℚ
  totalBets : ℚ
  totalWon : ℚ
  totalLost : ℚ
deriving DecidableEq

/-- Error codes used by the embedded operations, from ErrorCodes in src/core/types.ts. -/
inductive ErrorCode where
  | INVALID_INPUT
  | INVALID_CONFIG
  | CONFLICT
  | MARKET_NOT_FOUND
  | INSUFFICIENT_BALANCE
deriving DecidableEq

/-- Structured error, from PredictSDKError in src/core/types.ts. -/
structure PredictSDKError where
  code : ErrorCode
  msg : String
deriving DecidableEq

/-- SDK configuration (the parts the embedded operations read). -/
structure SDKConfig where
  initialBalance : ℚ
deriving DecidableEq

/-- The storage state backing the SDK: the three Maps of MemoryStorage
(src/adapters/storage.ts) as association lists keyed by the id field. -/
structure SDKState where
  markets : List Market
  bets : List Bet
  users : List User
deriving DecidableEq

/-- JS Map.set keyed by an id projection: replace the first element with the
same key, or append. -/
def saveBy {α : Type} (key : α → String) (x : α) : List α → List α
  | [] => [x]
  | y :: t => if key y = key x then x :: t else y :: saveBy key x t

/-- JS Map.get keyed by an id projection: the first element with the key. -/
def lookupBy {α : Type} (key : α → String) (l : List α) (k : String) : Option α :=
  l.find? (fun a => decide (key a = k))

theorem lookupBy_nil {α : Type} (key : α → String) (k : String) :
    lookupBy key ([] : List α) k = none := rfl

theorem lookupBy_cons {α : Type} (key : α → String) (y : α) (t : List α) (k : String) :
    lookupBy key (y :: t) k = if key y = k then some y else lookupBy key t k := by
  by_cases h : key y = k
  · simp [lookupBy, List.find?, h]
  · simp [lookupBy, List.find?, h]

theorem lookupBy_key_eq {α : Type} (key : α → String) (l : List α) (k : String) (a : α)
    (h : lookupBy key l k = some a) : key a = k := by
  induction l with
  | nil => simp [lookupBy_nil] at h
  | cons y t ih =>
    rw [lookupBy_cons] at h
    by_cases hy : key y = k
    · rw [if_pos hy] at h
      cases h
      exact hy
    · rw [if_neg hy] at h
      exact ih h

theorem lookupBy_saveBy_self {α : Type} (key : α → String) (x : α) (l : List α) :
    lookupBy key (saveBy key x l) (key x) = some x := by
  induction l with
  | nil => simp [saveBy, lookupBy_cons, lookupBy_nil]
  | cons y t ih =>
    by_cases h : key y = key x
    · simp [saveBy, h, lookupBy_cons]
    · simp [saveBy, h, lookupBy_cons, ih]

theorem lookupBy_saveBy_other {α : Type} (key : α → String) (x : α) (l : List α)
    (k : String) (hk : k ≠ key x) :
    lookupBy key (saveBy key x l) k = lookupBy key l k := by
  have hxk : ¬ key x = k := by
    intro hc
    exact hk hc.symm
  induction l with
  | nil => simp [saveBy, lookupBy_cons, lookupBy_nil, hxk]
  | cons y t ih =>
    by_cases h : key y = key x
    · have hyk : ¬ key y = k := by
        rw [h]
        exact hxk
      simp [saveBy, h, lookupBy_cons, hxk, hyk]
    · rw [saveBy, if_neg h, lookupBy_cons, lookupBy_cons]
      by_cases hy : key y = k
      · rw [if_pos hy, if_pos hy]
      · rw [if_neg hy, if_neg hy]
        exact ih

theorem saveBy_of_not_mem {α : Type} (key : α → String) (x : α) (l : List α)
    (h : key x ∉ l.map key) : saveBy key x l = l ++ [x] := by
  induction l with
  | nil => rfl
  | cons y t ih =>
    simp only [List.map_cons, List.mem_cons] at h
    push_neg at h
    have hne : key y ≠ key x := fun hc => h.1 hc.symm
    simp [saveBy, hne, ih h.2]

/-- Math.round(x * 100) / 100, the 2-decimal rounding used throughout odds.ts.
JS Math.round is round-half-up toward positive infinity, matching round on ℚ. -/
def round2 (x : ℚ) : ℚ := ((round (x * 100) : ℤ) : ℚ) / 100

/-- Math.round(x * 1000) / 1000, the 3-decimal rounding used for probabilities. -/
def round3 (x : ℚ) : ℚ := ((round (x * 1000) : ℤ) : ℚ) / 1000

theorem round2_le (x : ℚ) : round2 x ≤ x + 1 / 200 := by
  have h1 : ((round (x * 100) : ℤ) : ℚ) ≤ x * 100 + 1 / 2 := by
    rw [round_eq]
    exact (Int.floor_le (x * 100 + 1 / 2))
  have h2 : ((round (x * 100) : ℤ) : ℚ) / 100 ≤ (x * 100 + 1 / 2) / 100 := by
    apply div_le_div_of_nonneg_right h1 (by norm_num)
  calc round2 x = ((round (x * 100) : ℤ) : ℚ) / 100 := rfl
    _ ≤ (x * 100 + 1 / 2) / 100 := h2
    _ = x + 1 / 200 := by ring

/-- The per-outcome body of calculateOdds (the map function applied to each
outcome, with payoutPool = totalPool - totalPool * feeRate inlined). -/
def calculateOddsOutcome (market : Market) (outcome : MarketOutcome) : MarketOutcome :=
  if outcome.totalBets = 0 ∨ market.totalPool = 0 then
    { outcome with
      odds := (market.outcomes.length : ℚ)
      probability := 1 / (market.outcomes.length : ℚ) }
  else
    { outcome with
      odds := round2 ((market.totalPool - market.totalPool * market.feeRate) / outcome.totalBets)
      probability := round3 (outcome.totalBets / market.totalPool) }

/-- calculateOdds from src/utils/odds.ts. -/
def calculateOdds (market : Market) : List MarketOutcome :=
  market.outcomes.map (calculateOddsOutcome market)

/-- calculatePotentialPayout from src/utils/odds.ts. -/
def calculatePotentialPayout (amount : ℚ) (outcomeId : String) (market : Market) : ℚ :=
  match market.outcomes.find? (fun o => decide (o.id = outcomeId)) with
  | none => 0
  | some outcome =>
    let totalPool := market.totalPool + amount
    let feePool := totalPool * market.feeRate
    let payoutPool := totalPool - feePool
    let outcomePool := outcome.totalBets + amount
    round2 (outcomePool / payoutPool)

/-- The bet projection passed to calculatePayouts by resolveMarket. -/
structure BetRef where
  bettorId : String
  outcomeId : String
  amount : ℚ
deriving DecidableEq

/-- JS Map.get with the || 0 default used at the call sites. -/
def mapGet (m : List (String × ℚ)) (k : String) : ℚ :=
  match lookupBy Prod.fst m k with
  | none => 0
  | some e => e.2

/-- JS Map.set on the payouts map. -/
def mapSet (m : List (String × ℚ)) (k : String) (v : ℚ) : List (String × ℚ) :=
  saveBy Prod.fst (k, v) m

/-- Sum of all values stored in the payouts map. -/
def sumValues (m : List (String × ℚ)) : ℚ := (m.map Prod.snd).sum

theorem mapGet_mapSet_self (m : List (String × ℚ)) (k : String) (v : ℚ) :
    mapGet (mapSet m k v) k = v := by
  have h := lookupBy_saveBy_self Prod.fst (k, v) m
  simp only [mapGet, mapSet, h]

theorem mapGet_mapSet_other (m : List (String × ℚ)) (k k2 : String) (v : ℚ)
    (hne : k2 ≠ k) : mapGet (mapSet m k v) k2 = mapGet m k2 := by
  have h := lookupBy_saveBy_other Prod.fst (k, v) m k2 hne
  simp only [mapGet, mapSet, h]

theorem sumValues_mapSet_add (m : List (String × ℚ)) (k : String) (c : ℚ) :
    sumValues (mapSet m k (mapGet m k + c)) = sumValues m + c := by
  induction m with
  | nil => simp [sumValues, mapSet, saveBy, mapGet, lookupBy_nil]
  | cons e t ih =>
    by_cases h : e.1 = k
    · have hget : mapGet (e :: t) k = e.2 := by
        simp [mapGet, lookupBy_cons, h]
      have hset : mapSet (e :: t) k (mapGet (e :: t) k + c)
          = (k, e.2 + c) :: t := by
        simp [mapSet, saveBy, h, hget]
      rw [hset]
      simp [sumValues]
      ring
    · have hget : mapGet (e :: t) k = mapGet t k := by
        simp [mapGet, lookupBy_cons, h]
      have hset : mapSet (e :: t) k (mapGet (e :: t) k + c)
          = e :: mapSet t k (mapGet t k + c) := by
        simp [mapSet, saveBy, h, hget]
      rw [hset]
      have := ih
      simp [sumValues] at this ⊢
      rw [this]
      ring

/-- calculatePayouts from src/utils/odds.ts. -/
def calculatePayouts (market : Market) (winningOutcomeId : String)
    (bets : List BetRef) : List (String × ℚ) :=
  let totalPool := market.totalPool
  let feePool := totalPool * market.feeRate
  let payoutPool := totalPool - feePool
  match market.outcomes.find? (fun o => decide (o.id = winningOutcomeId)) with
  | none =>
    bets.foldl (fun payouts bet =>
      mapSet payouts bet.bettorId (mapGet payouts bet.bettorId + bet.amount)) []
  | some winningOutcome =>
    if winningOutcome.totalBets = 0 then
      bets.foldl (fun payouts bet =>
        mapSet payouts bet.bettorId (mapGet payouts bet.bettorId + bet.amount)) []
    else
      bets.foldl (fun payouts bet =>
        if bet.outcomeId = winningOutcomeId then
          mapSet payouts bet.bettorId
            (mapGet payouts bet.bettorId +
              round2 (bet.amount / winningOutcome.totalBets * payoutPool))
        else payouts) []

/-- placeBet input, from placeBetInput in src/core/types.ts. -/
structure PlaceBetInput where
  marketId : String
  bettorId : String
  outcomeId : String
  amount : ℚ
deriving DecidableEq

/-- resolveMarket input, from resolveMarketInput in src/core/types.ts (proof omitted). -/
structure ResolveMarketInput where
  marketId : String
  winningOutcomeId : String
deriving DecidableEq

/-- validatePlaceBet from src/utils/validation.ts, returning the first error
thrown, or none when all checks pass. The typeof-number check is subsumed by
typing; Date.now() is the explicit now argument. -/
def validatePlaceBet (now : ℤ) (input : PlaceBetInput) (market : Market) :
    Option PredictSDKError :=
  if market.status ≠ MarketStatus.OPEN then
    some ⟨ErrorCode.INVALID_INPUT, "Market is not open"⟩
  else if market.closesAt < now then
    some ⟨ErrorCode.INVALID_INPUT, "Market is closed"⟩
  else
    match market.outcomes.find? (fun o => decide (o.id = input.outcomeId)) with
    | none => some ⟨ErrorCode.INVALID_INPUT, "Outcome not found"⟩
    | some _ =>
      if input.amount ≤ 0 then
        some ⟨ErrorCode.INVALID_INPUT, "Amount must be a positive number"⟩
      else if market.minBet.isSome ∧ input.amount < market.minBet.getD 0 then
        some ⟨ErrorCode.INVALID_INPUT, "Amount must be greater than or equal to minBet"⟩
      else if market.maxBet.isSome ∧ market.maxBet.getD 0 < input.amount then
        some ⟨ErrorCode.INVALID_INPUT, "Amount must be less than or equal to maxBet"⟩
      else
        match market.allowedBettors with
        | none => none
        | some allowed =>
          if input.bettorId ∈ allowed then none
          else some ⟨ErrorCode.INVALID_INPUT, "Bettor is not allowed to bet on this market"⟩

/-- validateResolveMarket from src/utils/validation.ts: it requires the loaded
market to already be RESOLVED with a winning outcome set, and the candidate
outcome to exist. -/
def validateResolveMarket (input : ResolveMarketInput) (market : Market) :
    Option PredictSDKError :=
  if market.status ≠ MarketStatus.RESOLVED then
    some ⟨ErrorCode.INVALID_INPUT, "Market is not resolved"⟩
  else if market.winningOutcomeId = none then
    some ⟨ErrorCode.INVALID_INPUT, "Winning outcome is not set"⟩
  else
    match market.outcomes.find? (fun o => decide (o.id = input.winningOutcomeId)) with
    | none => some ⟨ErrorCode.INVALID_INPUT, "Outcome not found"⟩
    | some _ => none

/-- storage.getMarket on the embedded state. -/
def getMarketS (st : SDKState) (id : String) : Option Market :=
  lookupBy Market.id st.markets id

/-- storage.getUser on the embedded state. -/
def getUserS (st : SDKState) (id : String) : Option User :=
  lookupBy User.id st.users id

/-- getOrCreateUser from src/core/sdk.ts: read the user, or create one with the
configured initial balance. -/
def getOrCreateUser (cfg : SDKConfig) (userId : String) (st : SDKState) :
    User × SDKState :=
  match getUserS st userId with
  | some u => (u, st)
  | none =>
    let u : User := { id := userId, balance := cfg.initialBalance,
                      totalBets := 0, totalWon := 0, totalLost := 0 }
    (u, { st with users := saveBy User.id u st.users })

/-- updateUserBalance from src/core/sdk.ts: add delta to the balance and update
the lifetime totals. -/
def updateUserBalance (cfg : SDKConfig) (userId : String) (delta : ℚ)
    (st : SDKState) : User × SDKState :=
  let fetched := getOrCreateUser cfg userId st
  let user := fetched.1
  let st1 := fetched.2
  let user1 := { user with balance := user.balance + delta }
  let user2 :=
    if 0 < delta then { user1 with totalWon := user1.totalWon + delta }
    else { user1 with totalBets := user1.totalBets + |delta| }
  (user2, { st1 with users := saveBy User.id user2 st1.users })

/-- A market with its status forced to CLOSED. -/
def closeOf (market : Market) : Market := { market with status := MarketStatus.CLOSED }

/-- closeMarket from src/core/sdk.ts: it sets status to CLOSED with no check of
the current status. -/
def closeMarket (marketId : String) (st : SDKState) :
    Except PredictSDKError (Market × SDKState) :=
  match getMarketS st marketId with
  | none => .error ⟨ErrorCode.MARKET_NOT_FOUND, "Market not found"⟩
  | some market =>
    .ok (closeOf market, { st with markets := saveBy Market.id (closeOf market) st.markets })

/-- The bet record written by the resolveMarket loop: won or lost according to
the winning outcome, with the bettor's whole accumulated map payout stored on
each winning bet. -/
def resolvedBetOf (payouts : List (String × ℚ)) (wid : String) (b : Bet) : Bet :=
  if b.outcomeId = wid then
    { b with status := BetStatus.won, payout := some (mapGet payouts b.bettorId) }
  else
    { b with status := BetStatus.lost, payout := some 0 }

/-- One iteration of the resolveMarket bet loop: save the updated bet, and for
a winning bet with positive map payout credit the bettor with the whole
accumulated map amount. -/
def resolveStep (cfg : SDKConfig) (payouts : List (String × ℚ)) (wid : String)
    (s : SDKState) (b : Bet) : SDKState :=
  let payout := mapGet payouts b.bettorId
  let b1 := resolvedBetOf payouts wid b
  let s1 := { s with bets := saveBy Bet.id b1 s.bets }
  if b.outcomeId = wid ∧ 0 < payout then
    (updateUserBalance cfg b.bettorId payout s1).2
  else s1

/-- The body of resolveMarket after its guards pass. -/
def resolveMarketCore (cfg : SDKConfig) (now : ℤ) (input : ResolveMarketInput)
    (st : SDKState) (market : Market) : Market × SDKState :=
  let bets := st.bets.filter (fun b => decide (b.marketId = market.id))
  let payouts := calculatePayouts market input.winningOutcomeId
    (bets.map (fun b => { bettorId := b.bettorId, outcomeId := b.outcomeId,
                          amount := b.amount }))
  let market1 := { market with
    status := MarketStatus.RESOLVED
    resolvedAt := some now
    winningOutcomeId := some input.winningOutcomeId }
  let st1 := { st with markets := saveBy Market.id market1 st.markets }
  let st2 := bets.foldl (resolveStep cfg payouts input.winningOutcomeId) st1
  (market1, st2)

/-- resolveMarket from src/core/sdk.ts. -/
def resolveMarket (cfg : SDKConfig) (now : ℤ) (input : ResolveMarketInput)
    (st : SDKState) : Except PredictSDKError (Market × SDKState) :=
  match getMarketS st input.marketId with
  | none => .error ⟨ErrorCode.MARKET_NOT_FOUND, "Market not found"⟩
  | some market =>
    match validateResolveMarket input market with
    | some e => .error e
    | none => .ok (resolveMarketCore cfg now input st market)

/-- The bet record written by the cancelMarket refund loop. -/
def refundBet (b : Bet) : Bet :=
  { b with status := BetStatus.refunded, payout := some b.amount }

/-- One iteration of the cancelMarket refund loop: mark the bet refunded, save
it, and credit the stake back to the bettor. -/
def cancelStep (cfg : SDKConfig) (s : SDKState) (b : Bet) : SDKState :=
  let b1 := refundBet b
  let s1 := { s with bets := saveBy Bet.id b1 s.bets }
  (updateUserBalance cfg b.bettorId b.amount s1).2

/-- The body of cancelMarket after its guards pass (the cancelReason metadata
write is omitted: metadata is not modelled). -/
def cancelMarketCore (cfg : SDKConfig) (st : SDKState) (market : Market) :
    Market × SDKState :=
  let bets := st.bets.filter (fun b => decide (b.marketId = market.id))
  let st1 := bets.foldl (cancelStep cfg) st
  let market1 := { market with status := MarketStatus.CANCELLED }
  (market1, { st1 with markets := saveBy Market.id market1 st1.markets })

/-- cancelMarket from src/core/sdk.ts: the only status it rejects is RESOLVED. -/
def cancelMarket (cfg : SDKConfig) (marketId : String) (st : SDKState) :
    Except PredictSDKError (Market × SDKState) :=
  match getMarketS st marketId with
  | none => .error ⟨ErrorCode.MARKET_NOT_FOUND, "Market not found"⟩
  | some market =>
    if market.status = MarketStatus.RESOLVED then
      .error ⟨ErrorCode.CONFLICT, "Cannot cancel a resolved market"⟩
    else
      .ok (cancelMarketCore cfg st market)

/-- Mutation of the first outcome matching a predicate, as the in-place JS
mutation through market.outcomes.find in placeBet does. -/
def updateFirst {α : Type} (p : α → Bool) (f : α → α) : List α → List α
  | [] => []
  | y :: t => if p y then f y :: t else y :: updateFirst p f t

/-- The in-place mutation placeBet applies to the chosen outcome. -/
def bumpOutcome (amount : ℚ) (o : MarketOutcome) : MarketOutcome :=
  { o with
    totalBets := o.totalBets + amount
    betCount := o.betCount + 1 }

/-- The market after placeBet mutates the first matching outcome and the pool,
before recomputing odds. -/
def bumpedMarket (input : PlaceBetInput) (market : Market) : Market :=
  { market with
    outcomes := updateFirst (fun o => decide (o.id = input.outcomeId))
      (bumpOutcome input.amount) market.outcomes
    totalPool := market.totalPool + input.amount }

/-- The market record written back by placeBet: the mutated market with its
outcomes passed through calculateOdds. -/
def placedMarket (input : PlaceBetInput) (market : Market) : Market :=
  { bumpedMarket input market with
    outcomes := calculateOdds (bumpedMarket input market) }

/-- The bet record created by placeBet. -/
def placedBet (input : PlaceBetInput) (newBetId : String) (market : Market) : Bet :=
  let outcomeOdds :=
    (((calculateOdds market).find? (fun o => decide (o.id = input.outcomeId))).map
      MarketOutcome.odds).getD 0
  { id := newBetId, marketId := market.id,
    bettorId := input.bettorId, outcomeId := input.outcomeId,
    amount := input.amount,
    potentialPayout := calculatePotentialPayout input.amount input.outcomeId market,
    status := BetStatus.confirmed, payout := none,
    oddsAtBet := outcomeOdds }

/-- The body of placeBet after its guards pass. -/
def placeBetCore (cfg : SDKConfig) (input : PlaceBetInput) (newBetId : String)
    (st : SDKState) (market : Market) : Bet × SDKState :=
  let bet := placedBet input newBetId market
  let st2 := (updateUserBalance cfg input.bettorId (-input.amount) st).2
  let st3 := { st2 with bets := saveBy Bet.id bet st2.bets }
  let st4 := { st3 with markets := saveBy Market.id (placedMarket input market) st3.markets }
  (bet, st4)

/-- placeBet from src/core/sdk.ts. The freshly generated bet id is an explicit
argument. -/
def placeBet (cfg : SDKConfig) (now : ℤ) (input : PlaceBetInput)
    (newBetId : String) (st : SDKState) :
    Except PredictSDKError (Bet × SDKState) :=
  match getMarketS st input.marketId with
  | none => .error ⟨ErrorCode.MARKET_NOT_FOUND, "Market not found"⟩
  | some market =>
    match validatePlaceBet now input market with
    | some e => .error e
    | none =>
      if (getOrCreateUser cfg input.bettorId st).1.balance < input.amount then
        .error ⟨ErrorCode.INSUFFICIENT_BALANCE, "Insufficient balance"⟩
      else
        .ok (placeBetCore cfg input newBetId (getOrCreateUser cfg input.bettorId st).2 market)

/-- checkAndCloseExpiredMarkets from src/core/sdk.ts: close every OPEN market
whose close time has passed. -/
def checkAndCloseExpiredMarkets (now : ℤ) (st : SDKState) :
    List Market × SDKState :=
  st.markets.foldl (fun acc market =>
    if market.status = MarketStatus.OPEN ∧ market.closesAt ≤ now then
      (acc.1 ++ [closeOf market],
       { acc.2 with markets := saveBy Market.id (closeOf market) acc.2.markets })
    else acc) ([], st)

theorem getOrCreateUser_markets (cfg : SDKConfig) (uid : String) (st : SDKState) :
    (getOrCreateUser cfg uid st).2.markets = st.markets := by
  unfold getOrCreateUser
  split <;> rfl

theorem getOrCreateUser_bets (cfg : SDKConfig) (uid : String) (st : SDKState) :
    (getOrCreateUser cfg uid st).2.bets = st.bets := by
  unfold getOrCreateUser
  split <;> rfl

theorem getOrCreateUser_fst_id (cfg : SDKConfig) (uid : String) (st : SDKState) :
    (getOrCreateUser cfg uid st).1.id = uid := by
  unfold getOrCreateUser
  split
  next u hu => exact lookupBy_key_eq User.id st.users uid u hu
  next => rfl

theorem getUserS_getOrCreateUser_self (cfg : SDKConfig) (uid : String) (st : SDKState) :
    getUserS (getOrCreateUser cfg uid st).2 uid = some (getOrCreateUser cfg uid st).1 := by
  unfold getOrCreateUser
  split
  next u hu => exact hu
  next hu =>
    show lookupBy User.id (saveBy User.id _ st.users) uid = _
    have := lookupBy_saveBy_self User.id
      ({ id := uid, balance := cfg.initialBalance, totalBets := 0,
         totalWon := 0, totalLost := 0 } : User) st.users
    exact this

theorem getUserS_getOrCreateUser_other (cfg : SDKConfig) (uid uid2 : String)
    (st : SDKState) (hne : uid2 ≠ uid) :
    getUserS (getOrCreateUser cfg uid st).2 uid2 = getUserS st uid2 := by
  unfold getOrCreateUser
  split
  next => rfl
  next hu =>
    show lookupBy User.id (saveBy User.id _ st.users) uid2 = _
    exact lookupBy_saveBy_other User.id _ st.users uid2 hne

theorem updateUserBalance_markets (cfg : SDKConfig) (uid : String) (d : ℚ)
    (st : SDKState) : (updateUserBalance cfg uid d st).2.markets = st.markets := by
  unfold updateUserBalance
  split
  · exact getOrCreateUser_markets cfg uid st
  · exact getOrCreateUser_markets cfg uid st

theorem updateUserBalance_bets (cfg : SDKConfig) (uid : String) (d : ℚ)
    (st : SDKState) : (updateUserBalance cfg uid d st).2.bets = st.bets := by
  unfold updateUserBalance
  split
  · exact getOrCreateUser_bets cfg uid st
  · exact getOrCreateUser_bets cfg uid st

theorem updateUserBalance_fst_id (cfg : SDKConfig) (uid : String) (d : ℚ)
    (st : SDKState) : (updateUserBalance cfg uid d st).1.id = uid := by
  unfold updateUserBalance
  split
  · exact getOrCreateUser_fst_id cfg uid st
  · exact getOrCreateUser_fst_id cfg uid st

theorem updateUserBalance_fst_balance (cfg : SDKConfig) (uid : String) (d : ℚ)
    (st : SDKState) :
    (updateUserBalance cfg uid d st).1.balance
      = (getOrCreateUser cfg uid st).1.balance + d := by
  unfold updateUserBalance
  split <;> rfl

theorem lookupBy_saveBy_of_key {α : Type} (key : α → String) (x : α) (l : List α)
    (k : String) (hk : key x = k) :
    lookupBy key (saveBy key x l) k = some x := by
  rw [← hk]
  exact lookupBy_saveBy_self key x l

theorem getUserS_updateUserBalance_self (cfg : SDKConfig) (uid : String) (d : ℚ)
    (st : SDKState) :
    getUserS (updateUserBalance cfg uid d st).2 uid
      = some (updateUserBalance cfg uid d st).1 := by
  simp only [updateUserBalance, getUserS]
  split
  · exact lookupBy_saveBy_of_key User.id _ _ uid (getOrCreateUser_fst_id cfg uid st)
  · exact lookupBy_saveBy_of_key User.id _ _ uid (getOrCreateUser_fst_id cfg uid st)

theorem getUserS_updateUserBalance_other (cfg : SDKConfig) (uid uid2 : String)
    (d : ℚ) (st : SDKState) (hne : uid2 ≠ uid) :
    getUserS (updateUserBalance cfg uid d st).2 uid2 = getUserS st uid2 := by
  have base : getUserS (getOrCreateUser cfg uid st).2 uid2 = getUserS st uid2 :=
    getUserS_getOrCreateUser_other cfg uid uid2 st hne
  simp only [updateUserBalance, getUserS] at base ⊢
  split
  · rw [lookupBy_saveBy_other]
    · exact base
    · exact fun hc => hne (hc.trans (getOrCreateUser_fst_id cfg uid st))
  · rw [lookupBy_saveBy_other]
    · exact base
    · exact fun hc => hne (hc.trans (getOrCreateUser_fst_id cfg uid st))

theorem validateResolveMarket_none_status (input : ResolveMarketInput)
    (market : Market) (h : validateResolveMarket input market = none) :
    market.status = MarketStatus.RESOLVED := by
  by_contra hne
  unfold validateResolveMarket at h
  rw [if_pos hne] at h
  exact Option.noConfusion h

theorem validatePlaceBet_none_status (now : ℤ) (input : PlaceBetInput)
    (market : Market) (h : validatePlaceBet now input market = none) :
    market.status = MarketStatus.OPEN := by
  by_contra hne
  unfold validatePlaceBet at h
  rw [if_pos hne] at h
  exact Option.noConfusion h

theorem validatePlaceBet_none_outcome (now : ℤ) (input : PlaceBetInput)
    (market : Market) (h : validatePlaceBet now input market = none) :
    (market.outcomes.find? (fun o => decide (o.id = input.outcomeId))).isSome = true := by
  unfold validatePlaceBet at h
  split at h
  · exact Option.noConfusion h
  · split at h
    · exact Option.noConfusion h
    · split at h
      · exact Option.noConfusion h
      next o ho => rw [ho]; rfl

theorem foldl_markets_const (step : SDKState → Bet → SDKState)
    (hstep : ∀ s b, (step s b).markets = s.markets) (B : List Bet) :
    ∀ s : SDKState, (B.foldl step s).markets = s.markets := by
  induction B with
  | nil => intro s; rfl
  | cons b t ih =>
    intro s
    rw [List.foldl_cons, ih, hstep]

theorem foldl_users_const (step : SDKState → Bet → SDKState)
    (hstep : ∀ s b, (step s b).users = s.users) (B : List Bet) :
    ∀ s : SDKState, (B.foldl step s).users = s.users := by
  induction B with
  | nil => intro s; rfl
  | cons b t ih =>
    intro s
    rw [List.foldl_cons, ih, hstep]

theorem foldl_bets_saveBy (step : SDKState → Bet → SDKState) (f : Bet → Bet)
    (hstep : ∀ s b, (step s b).bets = saveBy Bet.id (f b) s.bets) (B : List Bet) :
    ∀ s : SDKState,
      (B.foldl step s).bets = B.foldl (fun l b => saveBy Bet.id (f b) l) s.bets := by
  induction B with
  | nil => intro s; rfl
  | cons b t ih =>
    intro s
    rw [List.foldl_cons, List.foldl_cons, ih, hstep]

theorem resolveStep_markets (cfg : SDKConfig) (payouts : List (String × ℚ))
    (wid : String) (s : SDKState) (b : Bet) :
    (resolveStep cfg payouts wid s b).markets = s.markets := by
  simp only [resolveStep]
  split
  · exact updateUserBalance_markets cfg b.bettorId _ _
  · rfl

theorem resolveStep_bets (cfg : SDKConfig) (payouts : List (String × ℚ))
    (wid : String) (s : SDKState) (b : Bet) :
    (resolveStep cfg payouts wid s b).bets
      = saveBy Bet.id (resolvedBetOf payouts wid b) s.bets := by
  simp only [resolveStep]
  split
  · exact updateUserBalance_bets cfg b.bettorId _ _
  · rfl

theorem cancelStep_markets (cfg : SDKConfig) (s : SDKState) (b : Bet) :
    (cancelStep cfg s b).markets = s.markets :=
  updateUserBalance_markets cfg b.bettorId b.amount _

theorem cancelStep_bets (cfg : SDKConfig) (s : SDKState) (b : Bet) :
    (cancelStep cfg s b).bets = saveBy Bet.id (refundBet b) s.bets :=
  updateUserBalance_bets cfg b.bettorId b.amount _

theorem resolvedBetOf_id (payouts : List (String × ℚ)) (wid : String) (b : Bet) :
    (resolvedBetOf payouts wid b).id = b.id := by
  unfold resolvedBetOf
  split <;> rfl

theorem refundBet_id (b : Bet) : (refundBet b).id = b.id := rfl

theorem foldl_saveBy_shift {α : Type} (key : α → String) (f : α → α) (B : List α)
    (y : α) (hy : ∀ b ∈ B, key (f b) ≠ key y) :
    ∀ s : List α,
      B.foldl (fun l b => saveBy key (f b) l) (y :: s)
        = y :: B.foldl (fun l b => saveBy key (f b) l) s := by
  induction B with
  | nil => intro s; rfl
  | cons b t ih =>
    intro s
    rw [List.foldl_cons, List.foldl_cons]
    have h1 : saveBy key (f b) (y :: s) = y :: saveBy key (f b) s := by
      rw [saveBy, if_neg (fun hc => hy b (List.mem_cons_self b t) hc.symm)]
    rw [h1, ih (fun x hx => hy x (List.mem_cons_of_mem b hx))]

theorem foldl_saveBy_filter {α : Type} (key : α → String) (p : α → Bool) (f : α → α)
    (hf : ∀ a, key (f a) = key a) :
    ∀ l : List α, (l.map key).Nodup →
      (l.filter p).foldl (fun acc b => saveBy key (f b) acc) l
        = l.map (fun a => if p a then f a else a) := by
  intro l
  induction l with
  | nil => intro h; rfl
  | cons a t ih =>
    intro hnd
    rw [List.map_cons, List.nodup_cons] at hnd
    have hmemkeys : ∀ b ∈ t.filter p, key (f b) ≠ key a := by
      intro b hb hc
      rw [hf] at hc
      exact hnd.1 (hc ▸ List.mem_map_of_mem key (List.mem_of_mem_filter hb))
    by_cases hpa : p a
    · rw [List.filter_cons_of_pos hpa, List.foldl_cons]
      have hsave : saveBy key (f a) (a :: t) = f a :: t := by
        rw [saveBy, if_pos (hf a).symm]
      rw [hsave, foldl_saveBy_shift key f (t.filter p) (f a)
        (fun b hb hc => hmemkeys b hb ((hf a) ▸ hc)), ih hnd.2,
        List.map_cons, if_pos hpa]
    · rw [List.filter_cons_of_neg hpa,
        foldl_saveBy_shift key f (t.filter p) a hmemkeys, ih hnd.2,
        List.map_cons, if_neg hpa]

theorem foldl_saveByCond_shift {α : Type} (key : α → String) (p : α → Bool)
    (f : α → α) (B : List α) (y : α) (hy : ∀ b ∈ B, key (f b) ≠ key y) :
    ∀ s : List α,
      B.foldl (fun l b => if p b then saveBy key (f b) l else l) (y :: s)
        = y :: B.foldl (fun l b => if p b then saveBy key (f b) l else l) s := by
  induction B with
  | nil => intro s; rfl
  | cons b t ih =>
    intro s
    rw [List.foldl_cons, List.foldl_cons]
    by_cases hpb : p b
    · have h1 : saveBy key (f b) (y :: s) = y :: saveBy key (f b) s := by
        rw [saveBy, if_neg (fun hc => hy b (List.mem_cons_self b t) hc.symm)]
      rw [if_pos hpb, if_pos hpb, h1, ih (fun x hx => hy x (List.mem_cons_of_mem b hx))]
    · rw [if_neg hpb, if_neg hpb, ih (fun x hx => hy x (List.mem_cons_of_mem b hx))]

theorem foldl_saveBy_cond {α : Type} (key : α → String) (p : α → Bool) (f : α → α)
    (hf : ∀ a, key (f a) = key a) :
    ∀ l : List α, (l.map key).Nodup →
      l.foldl (fun acc b => if p b then saveBy key (f b) acc else acc) l
        = l.map (fun a => if p a then f a else a) := by
  intro l
  induction l with
  | nil => intro h; rfl
  | cons a t ih =>
    intro hnd
    rw [List.map_cons, List.nodup_cons] at hnd
    have hmemkeys : ∀ b ∈ t, key (f b) ≠ key a := by
      intro b hb hc
      rw [hf] at hc
      exact hnd.1 (hc ▸ List.mem_map_of_mem key hb)
    rw [List.foldl_cons]
    by_cases hpa : p a
    · have hsave : saveBy key (f a) (a :: t) = f a :: t := by
        rw [saveBy, if_pos (hf a).symm]
      rw [if_pos hpa, hsave,
        foldl_saveByCond_shift key p f t (f a) (fun b hb hc => hmemkeys b hb ((hf a) ▸ hc)),
        ih hnd.2, List.map_cons, if_pos hpa]
    · rw [if_neg hpa, foldl_saveByCond_shift key p f t a hmemkeys, ih hnd.2,
        List.map_cons, if_neg hpa]

theorem lookupBy_map {α : Type} (key : α → String) (g : α → α)
    (hg : ∀ a, key (g a) = key a) (l : List α) (k : String) :
    lookupBy key (l.map g) k = (lookupBy key l k).map g := by
  induction l with
  | nil => rfl
  | cons y t ih =>
    rw [List.map_cons, lookupBy_cons, lookupBy_cons, hg]
    by_cases h : key y = k
    · rw [if_pos h, if_pos h]
      rfl
    · rw [if_neg h, if_neg h, ih]

theorem closeMarket_ok (mid : String) (st : SDKState) (m2 : Market)
    (st2 : SDKState) (h : closeMarket mid st = .ok (m2, st2)) :
    ∃ market, getMarketS st mid = some market ∧
      m2 = closeOf market ∧
      st2 = { st with markets := saveBy Market.id m2 st.markets } := by
  unfold closeMarket at h
  split at h
  · exact absurd h (by simp)
  next market hm =>
    simp only [Except.ok.injEq, Prod.mk.injEq] at h
    exact ⟨market, hm, h.1.symm, by rw [← h.2, h.1]⟩

theorem cancelMarket_ok (cfg : SDKConfig) (mid : String) (st : SDKState)
    (m2 : Market) (st2 : SDKState) (h : cancelMarket cfg mid st = .ok (m2, st2)) :
    ∃ market, getMarketS st mid = some market ∧
      market.status ≠ MarketStatus.RESOLVED ∧
      (m2, st2) = cancelMarketCore cfg st market := by
  unfold cancelMarket at h
  split at h
  · exact absurd h (by simp)
  next market hm =>
    split at h
    · exact absurd h (by simp)
    next hst =>
      simp only [Except.ok.injEq] at h
      exact ⟨market, hm, hst, h.symm⟩

theorem resolveMarket_ok (cfg : SDKConfig) (now : ℤ) (input : ResolveMarketInput)
    (st : SDKState) (m2 : Market) (st2 : SDKState)
    (h : resolveMarket cfg now input st = .ok (m2, st2)) :
    ∃ market, getMarketS st input.marketId = some market ∧
      validateResolveMarket input market = none ∧
      (m2, st2) = resolveMarketCore cfg now input st market := by
  unfold resolveMarket at h
  split at h
  · exact absurd h (by simp)
  next market hm =>
    split at h
    · exact absurd h (by simp)
    next hv =>
      simp only [Except.ok.injEq] at h
      exact ⟨market, hm, hv, h.symm⟩

theorem placeBet_ok (cfg : SDKConfig) (now : ℤ) (input : PlaceBetInput)
    (bid : String) (st : SDKState) (bet : Bet) (st2 : SDKState)
    (h : placeBet cfg now input bid st = .ok (bet, st2)) :
    ∃ market, getMarketS st input.marketId = some market ∧
      validatePlaceBet now input market = none ∧
      ¬ (getOrCreateUser cfg input.bettorId st).1.balance < input.amount ∧
      (bet, st2) = placeBetCore cfg input bid (getOrCreateUser cfg input.bettorId st).2 market := by
  unfold placeBet at h
  split at h
  · exact absurd h (by simp)
  next market hm =>
    split at h
    · exact absurd h (by simp)
    next hv =>
      split at h
      · exact absurd h (by simp)
      next hbal =>
        simp only [Except.ok.injEq] at h
        exact ⟨market, hm, hv, hbal, h.symm⟩

theorem checkAndClose_foldspec (now : ℤ) (l : List Market) :
    ∀ acc : List Market × SDKState,
      ((l.foldl (fun acc market =>
          if market.status = MarketStatus.OPEN ∧ market.closesAt ≤ now then
            (acc.1 ++ [closeOf market],
             { acc.2 with markets := saveBy Market.id (closeOf market) acc.2.markets })
          else acc) acc).2.markets
        = l.foldl (fun ms market =>
            if (market.status = MarketStatus.OPEN ∧ market.closesAt ≤ now : Bool) then
              saveBy Market.id (closeOf market) ms
            else ms) acc.2.markets)
      ∧ ((l.foldl (fun acc market =>
          if market.status = MarketStatus.OPEN ∧ market.closesAt ≤ now then
            (acc.1 ++ [closeOf market],
             { acc.2 with markets := saveBy Market.id (closeOf market) acc.2.markets })
          else acc) acc).2.bets = acc.2.bets)
      ∧ ((l.foldl (fun acc market =>
          if market.status = MarketStatus.OPEN ∧ market.closesAt ≤ now then
            (acc.1 ++ [closeOf market],
             { acc.2 with markets := saveBy Market.id (closeOf market) acc.2.markets })
          else acc) acc).2.users = acc.2.users) := by
  induction l with
  | nil => intro acc; exact ⟨rfl, rfl, rfl⟩
  | cons m t ih =>
    intro acc
    rw [List.foldl_cons, List.foldl_cons]
    by_cases hc : m.status = MarketStatus.OPEN ∧ m.closesAt ≤ now
    · rw [if_pos hc, if_pos (by simpa using hc)]
      exact ih _
    · rw [if_neg hc, if_neg (by simpa using hc)]
      exact ih acc

/-- Per-market sum of all non-refunded bet amounts, the quantity the spec says
equals totalPool. -/
def poolSum (bets : List Bet) (mid : String) : ℚ :=
  ((bets.filter (fun b => decide (b.marketId = mid ∧ b.status ≠ BetStatus.refunded))).map
    Bet.amount).sum

theorem poolSum_append (l1 l2 : List Bet) (mid : String) :
    poolSum (l1 ++ l2) mid = poolSum l1 mid + poolSum l2 mid := by
  unfold poolSum
  rw [List.filter_append, List.map_append, List.sum_append]

theorem poolSum_map_refund (l : List Bet) (mid : String) :
    poolSum (l.map (fun b =>
      if (b.marketId = mid : Bool) then refundBet b else b)) mid = 0 := by
  induction l with
  | nil => rfl
  | cons b t ih =>
    rw [List.map_cons]
    by_cases hb : b.marketId = mid
    · rw [if_pos (by simpa using hb)]
      unfold poolSum at ih ⊢
      rw [List.filter_cons_of_neg (by simp [refundBet])]
      exact ih
    · rw [if_neg (by simpa using hb)]
      unfold poolSum at ih ⊢
      rw [List.filter_cons_of_neg (by simp [hb])]
      exact ih

theorem refund_foldl_get (B : List BetRef) :
    ∀ (m : List (String × ℚ)) (k : String),
      mapGet (B.foldl (fun payouts bet =>
        mapSet payouts bet.bettorId (mapGet payouts bet.bettorId + bet.amount)) m) k
        = mapGet m k
          + ((B.filter (fun b => decide (b.bettorId = k))).map BetRef.amount).sum := by
  induction B with
  | nil =>
    intro m k
    simp
  | cons b t ih =>
    intro m k
    rw [List.foldl_cons, ih]
    by_cases hb : b.bettorId = k
    · rw [List.filter_cons_of_pos (by simpa using hb), List.map_cons, List.sum_cons,
        hb, mapGet_mapSet_self]
      ring
    · rw [List.filter_cons_of_neg (by simpa using hb), mapGet_mapSet_other _ _ _ _
        (fun hc => hb hc.symm)]

theorem winners_foldl_sum (wid : String) (T P : ℚ) (B : List BetRef) :
    ∀ m : List (String × ℚ),
      sumValues (B.foldl (fun payouts bet =>
        if bet.outcomeId = wid then
          mapSet payouts bet.bettorId
            (mapGet payouts bet.bettorId + round2 (bet.amount / T * P))
        else payouts) m)
        = sumValues m
          + (((B.filter (fun b => decide (b.outcomeId = wid))).map
              (fun b => round2 (b.amount / T * P))).sum) := by
  induction B with
  | nil =>
    intro m
    simp
  | cons b t ih =>
    intro m
    rw [List.foldl_cons]
    by_cases hb : b.outcomeId = wid
    · rw [if_pos hb, List.filter_cons_of_pos (by simpa using hb), List.map_cons,
        List.sum_cons, ih, sumValues_mapSet_add]
      ring
    · rw [if_neg hb, List.filter_cons_of_neg (by simpa using hb), ih]

theorem sum_map_round2_le (l : List ℚ) :
    ((l.map round2).sum) ≤ l.sum + (l.length : ℚ) * (1 / 200) := by
  induction l with
  | nil => simp
  | cons x t ih =>
    rw [List.map_cons, List.sum_cons, List.sum_cons, List.length_cons]
    have hx := round2_le x
    push_cast
    linarith

/-- Fixture outcome for concrete checks. -/
def fixOutcome (oid : String) (tb : ℚ) (bc : ℕ) : MarketOutcome :=
  { id := oid, label := oid, totalBets := tb, betCount := bc, odds := 0, probability := 0 }

/-- Fixture market for concrete checks. -/
def fixMarket (mid : String) (outcomes : List MarketOutcome) (status : MarketStatus)
    (pool fee : ℚ) (closes : ℤ) (winner : Option String) : Market :=
  { id := mid, question := "q", outcomes := outcomes, status := status,
    totalPool := pool, feeRate := fee, closesAt := closes, resolvedAt := none,
    winningOutcomeId := winner, allowedBettors := none, minBet := none, maxBet := none }

/-- Fixture bet for concrete checks. -/
def fixBet (bid mid uid oid : String) (amt : ℚ) : Bet :=
  { id := bid, marketId := mid, bettorId := uid, outcomeId := oid, amount := amt,
    potentialPayout := 0, status := BetStatus.confirmed, payout := none, oddsAtBet := 0 }

/-- Fixture configuration with a zero starting balance. -/
def cfg0 : SDKConfig := { initialBalance := 0 }

/-- C6: calculateOdds keeps every outcome in position with id, label, totalBets
and betCount unchanged; an outcome with zero totalBets, or any outcome of a
market with zero totalPool, gets odds equal to the number of outcomes and
probability 1 divided by the number of outcomes; every other outcome gets
odds = totalPool*(1-feeRate)/totalBets rounded to 2 decimals and
probability = totalBets/totalPool rounded to 3 decimals. -/
theorem C6_calculateOdds_spec (market : Market) (i : ℕ) (o : MarketOutcome)
    (h : market.outcomes[i]? = some o) :
    ∃ o2, (calculateOdds market)[i]? = some o2 ∧
      o2.id = o.id ∧ o2.label = o.label ∧ o2.totalBets = o.totalBets ∧
      o2.betCount = o.betCount ∧
      ((o.totalBets = 0 ∨ market.totalPool = 0) →
        o2.odds = (market.outcomes.length : ℚ) ∧
        o2.probability = 1 / (market.outcomes.length : ℚ)) ∧
      (¬ (o.totalBets = 0 ∨ market.totalPool = 0) →
        o2.odds = round2 (market.totalPool * (1 - market.feeRate) / o.totalBets) ∧
        o2.probability = round3 (o.totalBets / market.totalPool)) := by
  by_cases hc : o.totalBets = 0 ∨ market.totalPool = 0
  · refine ⟨{ o with
      odds := (market.outcomes.length : ℚ)
      probability := 1 / (market.outcomes.length : ℚ) }, ?_, rfl, rfl, rfl, rfl,
      fun _ => ⟨rfl, rfl⟩, fun hn => absurd hc hn⟩
    simp only [calculateOdds, calculateOddsOutcome, List.getElem?_map, h, Option.map_some',
      Option.some.injEq]
    rw [if_pos hc]
  · refine ⟨{ o with
      odds := round2 ((market.totalPool - market.totalPool * market.feeRate) / o.totalBets)
      probability := round3 (o.totalBets / market.totalPool) }, ?_, rfl, rfl, rfl, rfl,
      fun hp => absurd hp hc, fun _ => ⟨?_, rfl⟩⟩
    · simp only [calculateOdds, calculateOddsOutcome, List.getElem?_map, h, Option.map_some',
        Option.some.injEq]
      rw [if_neg hc]
    · show round2 ((market.totalPool - market.totalPool * market.feeRate) / o.totalBets)
        = round2 (market.totalPool * (1 - market.feeRate) / o.totalBets)
      congr 1
      ring

/-- C8: when the outcome named as winner exists but carries zero totalBets,
calculatePayouts maps every bettor to the exact sum of the amounts of their
own bets, with no fee and no rounding. -/
theorem C8_zero_stake_refund (market : Market) (wid : String) (bets : List BetRef)
    (w : MarketOutcome)
    (hw : market.outcomes.find? (fun o => decide (o.id = wid)) = some w)
    (h0 : w.totalBets = 0) (bettor : String) :
    mapGet (calculatePayouts market wid bets) bettor
      = ((bets.filter (fun b => decide (b.bettorId = bettor))).map BetRef.amount).sum := by
  simp only [calculatePayouts, hw]
  rw [if_pos h0, refund_foldl_get]
  simp [mapGet, lookupBy_nil]

/-- C10: when the named winning outcome does not exist on the market at all,
calculatePayouts does not fail: it runs the same refund branch, mapping every
bettor to the full sum of their own stakes. -/
theorem C10_unknown_winner_refund (market : Market) (wid : String) (bets : List BetRef)
    (hw : market.outcomes.find? (fun o => decide (o.id = wid)) = none)
    (bettor : String) :
    mapGet (calculatePayouts market wid bets) bettor
      = ((bets.filter (fun b => decide (b.bettorId = bettor))).map BetRef.amount).sum := by
  simp only [calculatePayouts, hw]
  rw [refund_foldl_get]
  simp [mapGet, lookupBy_nil]

/-- Concrete market for the C6 witness. -/
def C6m : Market :=
  fixMarket "m" [fixOutcome "A" 100 1, fixOutcome "B" 0 0] MarketStatus.OPEN 100 (1/50) 10 none

/-- C6 witness: the theorem evaluated on a two-outcome market with pool 100,
fee 2 percent and all 100 staked on the first outcome. -/
theorem C6_calculateOdds_spec_witness :
    (C6m.outcomes[0]? = some (fixOutcome "A" 100 1)) ∧
    (∃ o2, (calculateOdds C6m)[0]? = some o2 ∧
      o2.id = (fixOutcome "A" 100 1).id ∧ o2.label = (fixOutcome "A" 100 1).label ∧
      o2.totalBets = (fixOutcome "A" 100 1).totalBets ∧
      o2.betCount = (fixOutcome "A" 100 1).betCount ∧
      (((fixOutcome "A" 100 1).totalBets = 0 ∨ C6m.totalPool = 0) →
        o2.odds = (C6m.outcomes.length : ℚ) ∧
        o2.probability = 1 / (C6m.outcomes.length : ℚ)) ∧
      (¬ ((fixOutcome "A" 100 1).totalBets = 0 ∨ C6m.totalPool = 0) →
        o2.odds = round2 (C6m.totalPool * (1 - C6m.feeRate) / (fixOutcome "A" 100 1).totalBets) ∧
        o2.probability = round3 ((fixOutcome "A" 100 1).totalBets / C6m.totalPool))) :=
  ⟨rfl, C6_calculateOdds_spec C6m 0 (fixOutcome "A" 100 1) rfl⟩

/-- Concrete market and bets for the C8 witness. -/
def C8m : Market :=
  fixMarket "m" [fixOutcome "A" 0 0, fixOutcome "B" 120 2]
    MarketStatus.RESOLVED 120 (1/50) 10 (some "A")

def C8bets : List BetRef :=
  [{ bettorId := "u", outcomeId := "B", amount := 70 },
   { bettorId := "v", outcomeId := "B", amount := 20 },
   { bettorId := "u", outcomeId := "B", amount := 30 }]

/-- C8 witness: with the declared winner holding zero stake, a bettor with two
bets is mapped to exactly the sum of their own stakes. -/
theorem C8_zero_stake_refund_witness :
    (C8m.outcomes.find? (fun o => decide (o.id = "A")) = some (fixOutcome "A" 0 0)) ∧
    (fixOutcome "A" 0 0).totalBets = 0 ∧
    mapGet (calculatePayouts C8m "A" C8bets) "u"
      = ((C8bets.filter (fun b => decide (b.bettorId = "u"))).map BetRef.amount).sum :=
  ⟨rfl, rfl, C8_zero_stake_refund C8m "A" C8bets (fixOutcome "A" 0 0) rfl rfl "u"⟩

/-- Concrete market and bets for the C10 witness. -/
def C10m : Market :=
  fixMarket "m" [fixOutcome "A" 0 0, fixOutcome "B" 50 1]
    MarketStatus.RESOLVED 50 (1/50) 10 (some "Z")

def C10bets : List BetRef := [{ bettorId := "u", outcomeId := "B", amount := 50 }]

/-- C10 witness: a winner id matching no outcome refunds each bettor in full. -/
theorem C10_unknown_winner_refund_witness :
    (C10m.outcomes.find? (fun o => decide (o.id = "Z")) = none) ∧
    mapGet (calculatePayouts C10m "Z" C10bets) "u"
      = ((C10bets.filter (fun b => decide (b.bettorId = "u"))).map BetRef.amount).sum :=
  ⟨rfl, C10_unknown_winner_refund C10m "Z" C10bets rfl "u"⟩

theorem sum_map_div_mul (T P : ℚ) (l : List ℚ) :
    (l.map (fun a => a / T * P)).sum = l.sum / T * P := by
  induction l with
  | nil => simp
  | cons x t ih =>
    rw [List.map_cons, List.sum_cons, List.sum_cons, ih]
    ring

theorem sum_round2_div_mul_le (T P : ℚ) (hT : T ≠ 0) (W : List BetRef)
    (hsum : (W.map BetRef.amount).sum = T) :
    (W.map (fun b => round2 (b.amount / T * P))).sum
      ≤ P + (W.length : ℚ) * (1 / 200) := by
  have h1 : W.map (fun b => round2 (b.amount / T * P))
      = (W.map (fun b => b.amount / T * P)).map round2 := by
    rw [List.map_map]
    rfl
  rw [h1]
  have hle := sum_map_round2_le (W.map (fun b => b.amount / T * P))
  rw [List.length_map] at hle
  have h3 : W.map (fun b => b.amount / T * P)
      = (W.map BetRef.amount).map (fun a => a / T * P) := by
    rw [List.map_map]
    rfl
  rw [h3, sum_map_div_mul, hsum, div_self hT, one_mul] at hle
  rw [h3]
  exact hle

section

attribute [local semireducible] Rat.add Rat.mul Rat.sub Rat.inv

/-- Concrete market and bets showing the C7 claim false as stated: the winning
outcome exists with zero stake (so the claim hypothesis holds), yet the refund
branch pays out the whole 100 pool, exceeding pool*(1-feeRate) = 98 by far more
than one per-bet rounding step. -/
def C7m : Market :=
  fixMarket "m" [fixOutcome "A" 0 0, fixOutcome "B" 100 1]
    MarketStatus.RESOLVED 100 (1/50) 10 (some "A")

def C7bets : List BetRef := [{ bettorId := "u", outcomeId := "B", amount := 100 }]

/-- C7 counterexample: with the winning outcome present at zero stake (its
totalBets equal to the sum of the bets on it, namely zero), the summed payout
map of calculatePayouts strictly exceeds totalPool*(1-feeRate) even after
granting a half-cent rounding allowance per listed bet. -/
theorem C7_counterexample :
    ((C7m.outcomes.find? (fun o => decide (o.id = "A"))).map MarketOutcome.totalBets
      = some 0) ∧
    ((C7bets.filter (fun b => decide (b.outcomeId = "A"))).map BetRef.amount).sum = 0 ∧
    ¬ (sumValues (calculatePayouts C7m "A" C7bets)
        ≤ C7m.totalPool * (1 - C7m.feeRate) + (C7bets.length : ℚ) * (1 / 200)) := by
  refine ⟨rfl, by decide, ?_⟩
  decide

/-- C7 (amended): when the outcome named as winner exists with nonzero
totalBets equal to the sum of the amounts of the listed bets on it, the sum of
all amounts in the payout map of calculatePayouts is at most
totalPool*(1-feeRate) plus half a cent per winning bet; in the refund branch
(winner absent or zero-stake) the map instead refunds full stakes, which can
exceed that bound. -/
theorem C7_amended_payout_bound (market : Market) (wid : String) (bets : List BetRef)
    (w : MarketOutcome)
    (hw : market.outcomes.find? (fun o => decide (o.id = wid)) = some w)
    (hT : w.totalBets
      = ((bets.filter (fun b => decide (b.outcomeId = wid))).map BetRef.amount).sum)
    (hTne : w.totalBets ≠ 0) :
    sumValues (calculatePayouts market wid bets)
      ≤ market.totalPool * (1 - market.feeRate)
        + ((bets.filter (fun b => decide (b.outcomeId = wid))).length : ℚ) * (1 / 200) := by
  simp only [calculatePayouts, hw]
  rw [if_neg hTne, winners_foldl_sum]
  have h0 : sumValues ([] : List (String × ℚ)) = 0 := rfl
  rw [h0, zero_add]
  have hle := sum_round2_div_mul_le w.totalBets
    (market.totalPool - market.totalPool * market.feeRate) hTne
    (bets.filter (fun b => decide (b.outcomeId = wid))) hT.symm
  have heq : market.totalPool * (1 - market.feeRate)
      = market.totalPool - market.totalPool * market.feeRate := by ring
  rw [heq]
  exact hle

/-- Concrete market and bets for the C7 amended-claim witness. -/
def C7wm : Market :=
  fixMarket "m" [fixOutcome "A" 100 1, fixOutcome "B" 0 0]
    MarketStatus.RESOLVED 100 (1/50) 10 (some "A")

def C7wbets : List BetRef := [{ bettorId := "u", outcomeId := "A", amount := 100 }]

/-- C7 amended witness: one winning bet of 100 on a 100 pool with 2 percent
fee stays within 98 plus one half-cent rounding step. -/
theorem C7_amended_payout_bound_witness :
    (C7wm.outcomes.find? (fun o => decide (o.id = "A")) = some (fixOutcome "A" 100 1)) ∧
    ((fixOutcome "A" 100 1).totalBets
      = ((C7wbets.filter (fun b => decide (b.outcomeId = "A"))).map BetRef.amount).sum) ∧
    (fixOutcome "A" 100 1).totalBets ≠ 0 ∧
    (sumValues (calculatePayouts C7wm "A" C7wbets)
      ≤ C7wm.totalPool * (1 - C7wm.feeRate)
        + ((C7wbets.filter (fun b => decide (b.outcomeId = "A"))).length : ℚ) * (1 / 200)) :=
  ⟨rfl, by decide, by decide,
    C7_amended_payout_bound C7wm "A" C7wbets (fixOutcome "A" 100 1) rfl (by decide) (by decide)⟩

end

/-- C2: validateResolveMarket succeeds exactly when the loaded market already
has status RESOLVED, its winningOutcomeId is set, and the candidate winning
outcome id exists among the outcomes; every failure carries code INVALID_INPUT,
so resolveMarket on an OPEN or CLOSED market always fails with INVALID_INPUT. -/
theorem C2_validateResolveMarket_spec (cfg : SDKConfig) (now : ℤ)
    (input : ResolveMarketInput) (market : Market) :
    (validateResolveMarket input market = none ↔
      market.status = MarketStatus.RESOLVED ∧ market.winningOutcomeId ≠ none ∧
      (market.outcomes.find? (fun o => decide (o.id = input.winningOutcomeId))).isSome = true) ∧
    (∀ e, validateResolveMarket input market = some e → e.code = ErrorCode.INVALID_INPUT) ∧
    (∀ st : SDKState, getMarketS st input.marketId = some market →
      (market.status = MarketStatus.OPEN ∨ market.status = MarketStatus.CLOSED) →
      ∃ e, resolveMarket cfg now input st = .error e ∧
        e.code = ErrorCode.INVALID_INPUT) := by
  refine ⟨⟨?_, ?_⟩, ?_, ?_⟩
  · intro h
    have hs := validateResolveMarket_none_status input market h
    refine ⟨hs, ?_, ?_⟩
    · intro hw
      unfold validateResolveMarket at h
      rw [if_neg (fun hc => hc hs), if_pos hw] at h
      exact Option.noConfusion h
    · unfold validateResolveMarket at h
      rw [if_neg (fun hc => hc hs)] at h
      by_cases hw : market.winningOutcomeId = none
      · rw [if_pos hw] at h
        exact Option.noConfusion h
      · rw [if_neg hw] at h
        cases hfind : market.outcomes.find? (fun o => decide (o.id = input.winningOutcomeId)) with
        | none =>
          rw [hfind] at h
          exact Option.noConfusion h
        | some o => rfl
  · rintro ⟨hs, hw, hfind⟩
    unfold validateResolveMarket
    rw [if_neg (fun hc => hc hs), if_neg hw]
    cases hf : market.outcomes.find? (fun o => decide (o.id = input.winningOutcomeId)) with
    | none =>
      rw [hf] at hfind
      exact absurd hfind (by simp)
    | some o => rfl
  · intro e h
    unfold validateResolveMarket at h
    split at h
    · cases h; rfl
    · split at h
      · cases h; rfl
      · split at h
        · cases h; rfl
        · exact Option.noConfusion h
  · intro st hm hst
    have hne : market.status ≠ MarketStatus.RESOLVED := by
      rcases hst with h1 | h1 <;> rw [h1] <;> exact fun hc => MarketStatus.noConfusion hc
    have hv : validateResolveMarket input market
        = some ⟨ErrorCode.INVALID_INPUT, "Market is not resolved"⟩ := by
      unfold validateResolveMarket
      rw [if_pos hne]
    refine ⟨⟨ErrorCode.INVALID_INPUT, "Market is not resolved"⟩, ?_, rfl⟩
    simp only [resolveMarket, hm, hv]

/-- Concrete market for the C2 witness. -/
def C2m : Market :=
  fixMarket "m2" [fixOutcome "A" 0 0, fixOutcome "B" 0 0]
    MarketStatus.RESOLVED 0 0 10 (some "A")

/-- C2 witness: the characterization instantiated on a RESOLVED market with a
set winning outcome. -/
theorem C2_validateResolveMarket_spec_witness :
    (validateResolveMarket { marketId := "m2", winningOutcomeId := "A" } C2m = none ↔
      C2m.status = MarketStatus.RESOLVED ∧ C2m.winningOutcomeId ≠ none ∧
      (C2m.outcomes.find? (fun o => decide (o.id = "A"))).isSome = true) ∧
    (∀ e, validateResolveMarket { marketId := "m2", winningOutcomeId := "A" } C2m = some e →
      e.code = ErrorCode.INVALID_INPUT) ∧
    (∀ st : SDKState, getMarketS st "m2" = some C2m →
      (C2m.status = MarketStatus.OPEN ∨ C2m.status = MarketStatus.CLOSED) →
      ∃ e, resolveMarket cfg0 0 { marketId := "m2", winningOutcomeId := "A" } st = .error e ∧
        e.code = ErrorCode.INVALID_INPUT) :=
  C2_validateResolveMarket_spec cfg0 0 { marketId := "m2", winningOutcomeId := "A" } C2m

theorem find?_map_pred {α : Type} (p : α → Bool) (g : α → α)
    (hpg : ∀ a, p (g a) = p a) (l : List α) :
    (l.map g).find? p = (l.find? p).map g := by
  induction l with
  | nil => rfl
  | cons y t ih =>
    rw [List.map_cons]
    by_cases hy : p y = true
    · rw [List.find?_cons_of_pos _ (by rw [hpg]; exact hy), List.find?_cons_of_pos _ hy]
      rfl
    · rw [List.find?_cons_of_neg _ (by rw [hpg]; simpa using hy),
        List.find?_cons_of_neg _ (by simpa using hy), ih]

theorem updateFirst_find {α : Type} (p : α → Bool) (f : α → α)
    (hpf : ∀ a, p (f a) = p a) (l : List α) :
    (updateFirst p f l).find? p = (l.find? p).map f := by
  induction l with
  | nil => rfl
  | cons y t ih =>
    by_cases hy : p y = true
    · rw [updateFirst, if_pos hy, List.find?_cons_of_pos _ (by rw [hpf]; exact hy),
        List.find?_cons_of_pos _ hy]
      rfl
    · rw [updateFirst, if_neg hy, List.find?_cons_of_neg _ (by simpa using hy),
        List.find?_cons_of_neg _ (by simpa using hy), ih]

theorem calculateOddsOutcome_id (market : Market) (a : MarketOutcome) :
    (calculateOddsOutcome market a).id = a.id := by
  unfold calculateOddsOutcome
  split <;> rfl

theorem calculateOddsOutcome_totalBets (market : Market) (a : MarketOutcome) :
    (calculateOddsOutcome market a).totalBets = a.totalBets := by
  unfold calculateOddsOutcome
  split <;> rfl

theorem calculateOddsOutcome_betCount (market : Market) (a : MarketOutcome) :
    (calculateOddsOutcome market a).betCount = a.betCount := by
  unfold calculateOddsOutcome
  split <;> rfl

theorem getOrCreateUser_of_found (cfg : SDKConfig) (uid : String) (st : SDKState)
    (u : User) (h : getUserS st uid = some u) :
    getOrCreateUser cfg uid st = (u, st) := by
  unfold getOrCreateUser
  rw [h]

theorem placedMarket_find (input : PlaceBetInput) (market : Market) (o : MarketOutcome)
    (ho : market.outcomes.find? (fun x => decide (x.id = input.outcomeId)) = some o) :
    ∃ o2, (placedMarket input market).outcomes.find?
        (fun x => decide (x.id = input.outcomeId)) = some o2 ∧
      o2.totalBets = o.totalBets + input.amount ∧ o2.betCount = o.betCount + 1 := by
  have h1 : (placedMarket input market).outcomes
      = (updateFirst (fun x => decide (x.id = input.outcomeId)) (bumpOutcome input.amount)
          market.outcomes).map (calculateOddsOutcome (bumpedMarket input market)) := rfl
  rw [h1]
  rw [@find?_map_pred MarketOutcome (fun x => decide (x.id = input.outcomeId))
    (calculateOddsOutcome (bumpedMarket input market))
    (fun a => by simp only [calculateOddsOutcome_id]) _]
  rw [@updateFirst_find MarketOutcome (fun x => decide (x.id = input.outcomeId))
    (bumpOutcome input.amount) (fun a => rfl) market.outcomes, ho]
  refine ⟨calculateOddsOutcome (bumpedMarket input market) (bumpOutcome input.amount o),
    rfl, ?_, ?_⟩
  · rw [calculateOddsOutcome_totalBets]
    rfl
  · rw [calculateOddsOutcome_betCount]
    rfl

/-- C9: a successful placeBet grows the market totalPool by exactly the bet
amount, grows the chosen outcome (the first one matching the outcome id) by
the amount with betCount up by one, debits the bettor (as lazily created) by
exactly the amount, and leaves every other market and every other user
untouched. -/
theorem C9_placeBet_effects (cfg : SDKConfig) (now : ℤ) (input : PlaceBetInput)
    (bid : String) (st : SDKState) (bet : Bet) (st2 : SDKState)
    (hok : placeBet cfg now input bid st = .ok (bet, st2)) :
    ∃ m m2, getMarketS st input.marketId = some m ∧
      getMarketS st2 input.marketId = some m2 ∧
      m2.totalPool = m.totalPool + input.amount ∧
      (∀ o, m.outcomes.find? (fun x => decide (x.id = input.outcomeId)) = some o →
        ∃ o2, m2.outcomes.find? (fun x => decide (x.id = input.outcomeId)) = some o2 ∧
          o2.totalBets = o.totalBets + input.amount ∧ o2.betCount = o.betCount + 1) ∧
      (∃ u2, getUserS st2 input.bettorId = some u2 ∧
        u2.balance = (getOrCreateUser cfg input.bettorId st).1.balance - input.amount) ∧
      (∀ mid, mid ≠ input.marketId → getMarketS st2 mid = getMarketS st mid) ∧
      (∀ uid, uid ≠ input.bettorId → getUserS st2 uid = getUserS st uid) := by
  obtain ⟨market, hm, hv, hbal, hcore⟩ := placeBet_ok cfg now input bid st bet st2 hok
  have hmid : market.id = input.marketId :=
    lookupBy_key_eq Market.id st.markets input.marketId market hm
  have hst2 : st2 = (placeBetCore cfg input bid
      (getOrCreateUser cfg input.bettorId st).2 market).2 := congrArg Prod.snd hcore
  have hMk : st2.markets = saveBy Market.id (placedMarket input market) st.markets := by
    rw [hst2]
    show saveBy Market.id (placedMarket input market)
      (updateUserBalance cfg input.bettorId (-input.amount)
        (getOrCreateUser cfg input.bettorId st).2).2.markets = _
    rw [updateUserBalance_markets, getOrCreateUser_markets]
  have hUs : st2.users = (updateUserBalance cfg input.bettorId (-input.amount)
      (getOrCreateUser cfg input.bettorId st).2).2.users := by
    rw [hst2]
    rfl
  refine ⟨market, placedMarket input market, hm, ?_, rfl, ?_, ?_, ?_, ?_⟩
  · show lookupBy Market.id st2.markets input.marketId = _
    rw [hMk]
    exact lookupBy_saveBy_of_key Market.id _ _ _ hmid
  · intro o ho
    exact placedMarket_find input market o ho
  · have hfound := getUserS_getOrCreateUser_self cfg input.bettorId st
    have hidem := getOrCreateUser_of_found cfg input.bettorId
      (getOrCreateUser cfg input.bettorId st).2
      (getOrCreateUser cfg input.bettorId st).1 hfound
    refine ⟨(updateUserBalance cfg input.bettorId (-input.amount)
      (getOrCreateUser cfg input.bettorId st).2).1, ?_, ?_⟩
    · show lookupBy User.id st2.users input.bettorId = _
      rw [hUs]
      exact getUserS_updateUserBalance_self cfg input.bettorId (-input.amount) _
    · rw [updateUserBalance_fst_balance, hidem]
      ring
  · intro mid hne
    show lookupBy Market.id st2.markets mid = lookupBy Market.id st.markets mid
    rw [hMk, lookupBy_saveBy_other]
    intro hc
    exact hne (hc.trans hmid)
  · intro uid hne
    show lookupBy User.id st2.users uid = lookupBy User.id st.users uid
    rw [hUs]
    have h1 := getUserS_updateUserBalance_other cfg input.bettorId uid (-input.amount)
      (getOrCreateUser cfg input.bettorId st).2 hne
    have h2 := getUserS_getOrCreateUser_other cfg input.bettorId uid st hne
    exact h1.trans h2

/-- Fixture user for concrete checks. -/
def fixUser (uid : String) (bal : ℚ) : User :=
  { id := uid, balance := bal, totalBets := 0, totalWon := 0, totalLost := 0 }

section

attribute [local semireducible] Rat.add Rat.mul Rat.sub Rat.inv

/-- Fixture configuration with a 1000 starting balance, the SDK default. -/
def cfg1000 : SDKConfig := { initialBalance := 1000 }

def C9m : Market :=
  fixMarket "m9" [fixOutcome "A" 0 0, fixOutcome "B" 0 0] MarketStatus.OPEN 0 0 100 none

def C9st : SDKState := { markets := [C9m], bets := [], users := [] }

def C9input : PlaceBetInput :=
  { marketId := "m9", bettorId := "u", outcomeId := "A", amount := 50 }

/-- The concrete result of the C9 witness placeBet call. -/
def C9res : Bet × SDKState :=
  (placeBet cfg1000 0 C9input "b1" C9st).toOption.getD
    (fixBet "x" "x" "x" "x" 0, { markets := [], bets := [], users := [] })

/-- C9 witness: a 50 bet on a fresh two-outcome market by a lazily created
user with the default 1000 balance. -/
theorem C9_placeBet_effects_witness :
    (placeBet cfg1000 0 C9input "b1" C9st = .ok (C9res.1, C9res.2)) ∧
    (∃ m m2, getMarketS C9st C9input.marketId = some m ∧
      getMarketS C9res.2 C9input.marketId = some m2 ∧
      m2.totalPool = m.totalPool + C9input.amount ∧
      (∀ o, m.outcomes.find? (fun x => decide (x.id = C9input.outcomeId)) = some o →
        ∃ o2, m2.outcomes.find? (fun x => decide (x.id = C9input.outcomeId)) = some o2 ∧
          o2.totalBets = o.totalBets + C9input.amount ∧ o2.betCount = o.betCount + 1) ∧
      (∃ u2, getUserS C9res.2 C9input.bettorId = some u2 ∧
        u2.balance = (getOrCreateUser cfg1000 C9input.bettorId C9st).1.balance
          - C9input.amount) ∧
      (∀ mid, mid ≠ C9input.marketId → getMarketS C9res.2 mid = getMarketS C9st mid) ∧
      (∀ uid, uid ≠ C9input.bettorId → getUserS C9res.2 uid = getUserS C9st uid)) :=
  ⟨by rfl, C9_placeBet_effects cfg1000 0 C9input "b1" C9st C9res.1 C9res.2 (by rfl)⟩

/-- C1 fixtures: a RESOLVED market whose winner A carries 200 from two bets by
the same bettor u, and a RESOLVED market whose declared winner B carries zero
stake while v holds a 50 bet on A. -/
def C1m : Market :=
  fixMarket "m1" [fixOutcome "A" 200 2, fixOutcome "B" 0 0]
    MarketStatus.RESOLVED 200 0 10 (some "A")

def C1st : SDKState :=
  { markets := [C1m]
    bets := [fixBet "b1" "m1" "u" "A" 100, fixBet "b2" "m1" "u" "A" 100]
    users := [fixUser "u" 0] }

def C1zm : Market :=
  fixMarket "mz" [fixOutcome "A" 50 1, fixOutcome "B" 0 0]
    MarketStatus.RESOLVED 50 0 10 (some "B")

def C1zst : SDKState :=
  { markets := [C1zm]
    bets := [fixBet "bz" "mz" "v" "A" 50]
    users := [fixUser "v" 0] }

/-- C1 evaluated at its failing inputs: the payout map assigns bettor u exactly
200, yet resolveMarket credits u with 400 (once per winning bet); and in the
zero-stake-winner branch the map assigns v a 50 refund, yet resolveMarket
leaves the balance of v at 0. -/
theorem C1_resolve_credit_eval :
    (mapGet (calculatePayouts C1m "A"
      [{ bettorId := "u", outcomeId := "A", amount := 100 },
       { bettorId := "u", outcomeId := "A", amount := 100 }]) "u" = 200) ∧
    ((resolveMarket cfg0 99 { marketId := "m1", winningOutcomeId := "A" } C1st).map
      (fun p => (getUserS p.2 "u").map User.balance) = Except.ok (some 400)) ∧
    (mapGet (calculatePayouts C1zm "B"
      [{ bettorId := "v", outcomeId := "A", amount := 50 }]) "v" = 50) ∧
    ((resolveMarket cfg0 99 { marketId := "mz", winningOutcomeId := "B" } C1zst).map
      (fun p => (getUserS p.2 "v").map User.balance) = Except.ok (some 0)) :=
  ⟨by rfl, by rfl, by rfl, by rfl⟩

/-- C5 fixtures: an OPEN market with one confirmed 100 bet by u. -/
def C5m : Market :=
  fixMarket "m5" [fixOutcome "A" 100 1, fixOutcome "B" 0 0]
    MarketStatus.OPEN 100 0 100 none

def C5st : SDKState :=
  { markets := [C5m]
    bets := [fixBet "b1" "m5" "u" "A" 100]
    users := [fixUser "u" 0] }

/-- The result of cancelling the C5 market twice in a row. -/
def C5second : Except PredictSDKError (Market × SDKState) :=
  match cancelMarket cfg0 "m5" C5st with
  | .ok p => cancelMarket cfg0 "m5" p.2
  | .error e => .error e

/-- C5 evaluated at its failing input: the first cancel refunds the 100 stake;
the second cancel does not fail with CONFLICT but succeeds and credits the
same stake again, leaving u with 200. -/
theorem C5_double_cancel_eval :
    ((cancelMarket cfg0 "m5" C5st).map
      (fun p => (getUserS p.2 "u").map User.balance) = Except.ok (some 100)) ∧
    (C5second.map (fun p => ((getUserS p.2 "u").map User.balance, p.1.status))
      = Except.ok (some 200, MarketStatus.CANCELLED)) :=
  ⟨by rfl, by rfl⟩

/-- C3 fixtures: a single RESOLVED market. -/
def C3m : Market :=
  fixMarket "m3" [fixOutcome "A" 0 0, fixOutcome "B" 0 0]
    MarketStatus.RESOLVED 0 0 10 (some "A")

def C3st : SDKState := { markets := [C3m], bets := [], users := [] }

/-- C3 counterexample: closeMarket on a RESOLVED market succeeds and moves its
status to CLOSED, leaving the RESOLVED state. -/
theorem C3_counterexample :
    ((getMarketS C3st "m3").map Market.status = some MarketStatus.RESOLVED) ∧
    ((closeMarket "m3" C3st).map (fun p => ((getMarketS p.2 "m3").map Market.status))
      = Except.ok (some MarketStatus.CLOSED)) :=
  ⟨rfl, rfl⟩

/-- C4 fixtures: an OPEN market with pool 100 backed by one confirmed bet. -/
def C4m : Market :=
  fixMarket "m4" [fixOutcome "A" 100 1, fixOutcome "B" 0 0]
    MarketStatus.OPEN 100 0 100 none

def C4st : SDKState :=
  { markets := [C4m]
    bets := [fixBet "b1" "m4" "u" "A" 100]
    users := [fixUser "u" 0] }

/-- C4 counterexample: the pool invariant holds before cancelMarket (pool 100,
non-refunded stakes 100), but after cancelMarket the stored pool is still 100
while every bet is refunded, so the non-refunded sum is 0 and the invariant
fails. -/
theorem C4_counterexample :
    ((getMarketS C4st "m4").map Market.totalPool = some 100) ∧
    (poolSum C4st.bets "m4" = 100) ∧
    ((cancelMarket cfg0 "m4" C4st).map
      (fun p => ((getMarketS p.2 "m4").map Market.totalPool, poolSum p.2.bets "m4"))
      = Except.ok (some 100, 0)) ∧
    ((100 : ℚ) ≠ 0) := by
  refine ⟨rfl, by rfl, by rfl, by norm_num⟩

end

/-- C3 (amended): cancelMarket, resolveMarket, placeBet and
checkAndCloseExpiredMarkets never move a market out of RESOLVED or CANCELLED;
closeMarket, however, sets the status of any existing market to CLOSED with no
guard on its current status, so RESOLVED and CANCELLED are not terminal under
closeMarket. -/
theorem C3_amended_terminal_status (cfg : SDKConfig) (now : ℤ) (st : SDKState)
    (mid : String) (m : Market)
    (hnd : (st.markets.map Market.id).Nodup)
    (hm : getMarketS st mid = some m)
    (hterm : m.status = MarketStatus.RESOLVED ∨ m.status = MarketStatus.CANCELLED) :
    (∀ mid2 m2 st2, cancelMarket cfg mid2 st = .ok (m2, st2) →
      (getMarketS st2 mid).map Market.status = some m.status) ∧
    (∀ inp m2 st2, resolveMarket cfg now inp st = .ok (m2, st2) →
      (getMarketS st2 mid).map Market.status = some m.status) ∧
    (∀ inp bid bet st2, placeBet cfg now inp bid st = .ok (bet, st2) →
      (getMarketS st2 mid).map Market.status = some m.status) ∧
    ((getMarketS (checkAndCloseExpiredMarkets now st).2 mid).map Market.status
      = some m.status) ∧
    (∀ m2 st2, closeMarket mid st = .ok (m2, st2) →
      m2.status = MarketStatus.CLOSED ∧
      (getMarketS st2 mid).map Market.status = some MarketStatus.CLOSED) := by
  have hmL : lookupBy Market.id st.markets mid = some m := hm
  refine ⟨?_, ?_, ?_, ?_, ?_⟩
  · intro mid2 m2 st2 h
    obtain ⟨mk, hmk, hnres, hp⟩ := cancelMarket_ok cfg mid2 st m2 st2 h
    have hmkid : mk.id = mid2 := lookupBy_key_eq Market.id st.markets mid2 mk hmk
    have hst2 : st2 = (cancelMarketCore cfg st mk).2 := congrArg Prod.snd hp
    have hmar : st2.markets
        = saveBy Market.id { mk with status := MarketStatus.CANCELLED } st.markets := by
      rw [hst2]
      show saveBy Market.id _
        ((st.bets.filter (fun b => decide (b.marketId = mk.id))).foldl
          (cancelStep cfg) st).markets = _
      rw [foldl_markets_const (cancelStep cfg) (cancelStep_markets cfg)]
    by_cases hc : mid = mk.id
    · have hmm : m = mk := by
        rw [hc, hmkid] at hm
        rw [hmk] at hm
        exact (Option.some.injEq _ _ ▸ hm).symm
      have hcanc : m.status = MarketStatus.CANCELLED := by
        rcases hterm with h1 | h1
        · exact absurd (hmm ▸ h1) hnres
        · exact h1
      show (lookupBy Market.id st2.markets mid).map Market.status = _
      rw [hmar, hc]
      rw [lookupBy_saveBy_of_key]
      · rw [hcanc]
        rfl
      · rfl
    · show (lookupBy Market.id st2.markets mid).map Market.status = _
      rw [hmar, lookupBy_saveBy_other]
      · rw [hmL]
        rfl
      · exact hc
  · intro inp m2 st2 h
    obtain ⟨mk, hmk, hval, hp⟩ := resolveMarket_ok cfg now inp st m2 st2 h
    have hmkid : mk.id = inp.marketId := lookupBy_key_eq Market.id st.markets _ mk hmk
    have hres : mk.status = MarketStatus.RESOLVED :=
      validateResolveMarket_none_status inp mk hval
    have hst2 : st2 = (resolveMarketCore cfg now inp st mk).2 := congrArg Prod.snd hp
    have hmar : st2.markets
        = saveBy Market.id { mk with
            status := MarketStatus.RESOLVED
            resolvedAt := some now
            winningOutcomeId := some inp.winningOutcomeId } st.markets := by
      rw [hst2]
      show ((st.bets.filter (fun b => decide (b.marketId = mk.id))).foldl
          (resolveStep cfg _ inp.winningOutcomeId)
          { st with markets := saveBy Market.id _ st.markets }).markets = _
      rw [foldl_markets_const (resolveStep cfg _ inp.winningOutcomeId)
        (resolveStep_markets cfg _ inp.winningOutcomeId)]
    by_cases hc : mid = mk.id
    · have hmm : m = mk := by
        rw [hc, hmkid] at hm
        rw [hmk] at hm
        exact (Option.some.injEq _ _ ▸ hm).symm
      show (lookupBy Market.id st2.markets mid).map Market.status = _
      rw [hmar, hc]
      rw [lookupBy_saveBy_of_key]
      · rw [hmm, hres]
        rfl
      · rfl
    · show (lookupBy Market.id st2.markets mid).map Market.status = _
      rw [hmar, lookupBy_saveBy_other]
      · rw [hmL]
        rfl
      · exact hc
  · intro inp bid bet st2 h
    obtain ⟨mk, hmk, hval, hbal, hp⟩ := placeBet_ok cfg now inp bid st bet st2 h
    have hmkid : mk.id = inp.marketId := lookupBy_key_eq Market.id st.markets _ mk hmk
    have hopen : mk.status = MarketStatus.OPEN := validatePlaceBet_none_status now inp mk hval
    have hst2 : st2 = (placeBetCore cfg inp bid
        (getOrCreateUser cfg inp.bettorId st).2 mk).2 := congrArg Prod.snd hp
    have hmar : st2.markets = saveBy Market.id (placedMarket inp mk) st.markets := by
      rw [hst2]
      show saveBy Market.id (placedMarket inp mk)
        (updateUserBalance cfg inp.bettorId (-inp.amount)
          (getOrCreateUser cfg inp.bettorId st).2).2.markets = _
      rw [updateUserBalance_markets, getOrCreateUser_markets]
    by_cases hc : mid = mk.id
    · exfalso
      have hmm : m = mk := by
        rw [hc, hmkid] at hm
        rw [hmk] at hm
        exact (Option.some.injEq _ _ ▸ hm).symm
      rcases hterm with h1 | h1 <;>
        · rw [hmm, hopen] at h1
          exact MarketStatus.noConfusion h1
    · show (lookupBy Market.id st2.markets mid).map Market.status = _
      rw [hmar, lookupBy_saveBy_other]
      · rw [hmL]
        rfl
      · intro hcc
        exact hc hcc
  · have hms := (checkAndClose_foldspec now st.markets ([], st)).1
    have hfold := foldl_saveBy_cond Market.id
      (fun market => decide (market.status = MarketStatus.OPEN ∧ market.closesAt ≤ now))
      closeOf (fun a => rfl) st.markets hnd
    have hmarkets : (checkAndCloseExpiredMarkets now st).2.markets
        = st.markets.map (fun a =>
            if (decide (a.status = MarketStatus.OPEN ∧ a.closesAt ≤ now)) = true
            then closeOf a else a) := hms.trans hfold
    show (lookupBy Market.id (checkAndCloseExpiredMarkets now st).2.markets mid).map
      Market.status = _
    rw [hmarkets, lookupBy_map]
    · rw [hmL]
      simp only [Option.map_some']
      rw [if_neg (by rcases hterm with h1 | h1 <;> simp [h1])]
    · intro a
      by_cases hpa : (decide (a.status = MarketStatus.OPEN ∧ a.closesAt ≤ now)) = true
      · rw [if_pos hpa]
        rfl
      · rw [if_neg hpa]
  · intro m2 st2 h
    obtain ⟨mk, hmk, hm2, hst2⟩ := closeMarket_ok mid st m2 st2 h
    have hmkid : mk.id = mid := lookupBy_key_eq Market.id st.markets mid mk hmk
    refine ⟨by rw [hm2]; rfl, ?_⟩
    rw [hst2]
    show (lookupBy Market.id (saveBy Market.id m2 st.markets) mid).map Market.status = _
    rw [lookupBy_saveBy_of_key Market.id m2 st.markets mid (by rw [hm2]; exact hmkid)]
    rw [hm2]
    rfl

/-- C3 amended witness: the terminal-status properties instantiated on the
one-market RESOLVED state used in the counterexample. -/
theorem C3_amended_terminal_status_witness :
    ((C3st.markets.map Market.id).Nodup) ∧
    (getMarketS C3st "m3" = some C3m) ∧
    (C3m.status = MarketStatus.RESOLVED ∨ C3m.status = MarketStatus.CANCELLED) ∧
    ((∀ mid2 m2 st2, cancelMarket cfg0 mid2 C3st = .ok (m2, st2) →
      (getMarketS st2 "m3").map Market.status = some C3m.status) ∧
    (∀ inp m2 st2, resolveMarket cfg0 0 inp C3st = .ok (m2, st2) →
      (getMarketS st2 "m3").map Market.status = some C3m.status) ∧
    (∀ inp bid bet st2, placeBet cfg0 0 inp bid C3st = .ok (bet, st2) →
      (getMarketS st2 "m3").map Market.status = some C3m.status) ∧
    ((getMarketS (checkAndCloseExpiredMarkets 0 C3st).2 "m3").map Market.status
      = some C3m.status) ∧
    (∀ m2 st2, closeMarket "m3" C3st = .ok (m2, st2) →
      m2.status = MarketStatus.CLOSED ∧
      (getMarketS st2 "m3").map Market.status = some MarketStatus.CLOSED)) :=
  ⟨by decide, rfl, Or.inl rfl,
    C3_amended_terminal_status cfg0 0 C3st "m3" C3m (by decide) rfl (Or.inl rfl)⟩

theorem placedBet_marketId (inp : PlaceBetInput) (bid : String) (mk : Market) :
    (placedBet inp bid mk).marketId = mk.id := rfl

theorem placedBet_amount (inp : PlaceBetInput) (bid : String) (mk : Market) :
    (placedBet inp bid mk).amount = inp.amount := rfl

theorem placedBet_status (inp : PlaceBetInput) (bid : String) (mk : Market) :
    (placedBet inp bid mk).status = BetStatus.confirmed := rfl

/-- C4 (amended): the pool invariant (totalPool equals the sum of non-refunded
bet amounts on the market) is preserved by every successful placeBet with a
fresh bet id; cancelMarket, however, leaves the cancelled market's totalPool
unchanged while marking every one of its bets refunded, so after cancelling a
market with a nonzero pool the invariant no longer holds. -/
theorem C4_amended_pool_invariant (cfg : SDKConfig) (now : ℤ) (st : SDKState) :
    (∀ inp bid bet st2, placeBet cfg now inp bid st = .ok (bet, st2) →
      bid ∉ st.bets.map Bet.id →
      ∀ mid, (∀ m, getMarketS st mid = some m → m.totalPool = poolSum st.bets mid) →
        ∀ m2, getMarketS st2 mid = some m2 → m2.totalPool = poolSum st2.bets mid) ∧
    (∀ mid m2 st2, (st.bets.map Bet.id).Nodup →
      cancelMarket cfg mid st = .ok (m2, st2) →
      ((getMarketS st2 mid).map Market.totalPool
        = (getMarketS st mid).map Market.totalPool) ∧
      poolSum st2.bets mid = 0 ∧
      (∀ m, getMarketS st mid = some m → m.totalPool ≠ 0 →
        ∃ m2x, getMarketS st2 mid = some m2x ∧
          m2x.totalPool ≠ poolSum st2.bets mid)) := by
  constructor
  · intro inp bid bet st2 h hfresh mid hinv m2 hm2
    obtain ⟨mk, hmk, hval, hbal, hp⟩ := placeBet_ok cfg now inp bid st bet st2 h
    have hmkid : mk.id = inp.marketId := lookupBy_key_eq Market.id st.markets _ mk hmk
    have hst2 : st2 = (placeBetCore cfg inp bid
        (getOrCreateUser cfg inp.bettorId st).2 mk).2 := congrArg Prod.snd hp
    have hmar : st2.markets = saveBy Market.id (placedMarket inp mk) st.markets := by
      rw [hst2]
      show saveBy Market.id (placedMarket inp mk)
        (updateUserBalance cfg inp.bettorId (-inp.amount)
          (getOrCreateUser cfg inp.bettorId st).2).2.markets = _
      rw [updateUserBalance_markets, getOrCreateUser_markets]
    have hbets : st2.bets = st.bets ++ [placedBet inp bid mk] := by
      rw [hst2]
      show saveBy Bet.id (placedBet inp bid mk)
        (updateUserBalance cfg inp.bettorId (-inp.amount)
          (getOrCreateUser cfg inp.bettorId st).2).2.bets = _
      rw [updateUserBalance_bets, getOrCreateUser_bets]
      exact saveBy_of_not_mem Bet.id _ st.bets hfresh
    have hm2L : lookupBy Market.id st2.markets mid = some m2 := hm2
    by_cases hcm : mid = inp.marketId
    · have hkey : mk.id = mid := hmkid.trans hcm.symm
      have hlook : lookupBy Market.id
          (saveBy Market.id (placedMarket inp mk) st.markets) mid
          = some (placedMarket inp mk) := by
        apply lookupBy_saveBy_of_key
        exact hkey
      have hm2v : m2 = placedMarket inp mk := by
        rw [hmar, hlook] at hm2L
        exact (Option.some.injEq _ _ ▸ hm2L).symm
      have hpool := hinv mk (by rw [hcm]; exact hmk)
      have hsing : poolSum [placedBet inp bid mk] mid = inp.amount := by
        unfold poolSum
        rw [List.filter_cons_of_pos (by
          simp [placedBet_marketId, placedBet_status, hkey])]
        simp [placedBet_amount]
      rw [hm2v]
      show mk.totalPool + inp.amount = poolSum st2.bets mid
      rw [hbets, poolSum_append, hsing, hpool]
    · have hlook2 : lookupBy Market.id
          (saveBy Market.id (placedMarket inp mk) st.markets) mid
          = lookupBy Market.id st.markets mid := by
        rw [lookupBy_saveBy_other]
        intro hcc
        exact hcm (hcc.trans hmkid)
      have hm2S : getMarketS st mid = some m2 := by
        rw [hmar, hlook2] at hm2L
        exact hm2L
      have hz : poolSum [placedBet inp bid mk] mid = 0 := by
        unfold poolSum
        rw [List.filter_cons_of_neg (by
          simp only [placedBet_marketId, placedBet_status, decide_eq_true_eq, not_and]
          intro hcc
          exact absurd (hcc.symm.trans hmkid) hcm)]
        rfl
      rw [hinv m2 hm2S, hbets, poolSum_append, hz, add_zero]
  · intro mid m2 st2 hnd h
    obtain ⟨mk, hmk, hnres, hp⟩ := cancelMarket_ok cfg mid st m2 st2 h
    have hmkid : mk.id = mid := lookupBy_key_eq Market.id st.markets mid mk hmk
    have hst2 : st2 = (cancelMarketCore cfg st mk).2 := congrArg Prod.snd hp
    have hmar : st2.markets
        = saveBy Market.id { mk with status := MarketStatus.CANCELLED } st.markets := by
      rw [hst2]
      show saveBy Market.id _
        ((st.bets.filter (fun b => decide (b.marketId = mk.id))).foldl
          (cancelStep cfg) st).markets = _
      rw [foldl_markets_const (cancelStep cfg) (cancelStep_markets cfg)]
    have hbetsfold : st2.bets = st.bets.map (fun b =>
        if (decide (b.marketId = mk.id)) = true then refundBet b else b) := by
      rw [hst2]
      show ((st.bets.filter (fun b => decide (b.marketId = mk.id))).foldl
        (cancelStep cfg) st).bets = _
      rw [foldl_bets_saveBy (cancelStep cfg) refundBet (cancelStep_bets cfg)]
      exact foldl_saveBy_filter Bet.id (fun b => decide (b.marketId = mk.id)) refundBet
        (fun a => rfl) st.bets hnd
    have hlook : getMarketS st2 mid = some { mk with status := MarketStatus.CANCELLED } := by
      show lookupBy Market.id st2.markets mid = _
      rw [hmar]
      apply lookupBy_saveBy_of_key
      exact hmkid
    have hzero : poolSum st2.bets mid = 0 := by
      rw [hbetsfold, hmkid]
      exact poolSum_map_refund st.bets mid
    refine ⟨?_, hzero, ?_⟩
    · rw [hlook, hmk]
      rfl
    · intro m hmex hne
      have hmmk : m = mk := by
        rw [hmk] at hmex
        exact (Option.some.injEq _ _ ▸ hmex).symm
      refine ⟨{ mk with status := MarketStatus.CANCELLED }, hlook, ?_⟩
      rw [hzero]
      show mk.totalPool ≠ 0
      rw [← hmmk]
      exact hne

/-- C4 amended witness: the invariant statement instantiated on the concrete
one-bet market state used in the counterexample. -/
theorem C4_amended_pool_invariant_witness :
    (∀ inp bid bet st2, placeBet cfg0 0 inp bid C4st = .ok (bet, st2) →
      bid ∉ C4st.bets.map Bet.id →
      ∀ mid, (∀ m, getMarketS C4st mid = some m → m.totalPool = poolSum C4st.bets mid) →
        ∀ m2, getMarketS st2 mid = some m2 → m2.totalPool = poolSum st2.bets mid) ∧
    (∀ mid m2 st2, (C4st.bets.map Bet.id).Nodup →
      cancelMarket cfg0 mid C4st = .ok (m2, st2) →
      ((getMarketS st2 mid).map Market.totalPool
        = (getMarketS C4st mid).map Market.totalPool) ∧
      poolSum st2.bets mid = 0 ∧
      (∀ m, getMarketS C4st mid = some m → m.totalPool ≠ 0 →
        ∃ m2x, getMarketS st2 mid = some m2x ∧
          m2x.totalPool ≠ poolSum st2.bets mid)) :=
  C4_amended_pool_invariant cfg0 0 C4st

end PlayMarkets
